import Mathlib

/-!
Verification of the peer-to-peer anti-entropy synchronization engine of the
`bluee` repository (src/CommunicationService.ts, src/realm.ts and the unnamed
source variant).  The TypeScript code is shallowly embedded: Realm stores
become lists of records keyed by `_id`, `Date` values become natural-number
instants (epoch milliseconds), JavaScript dictionaries become functions into
`Option`, and the radio layer is modelled by explicit environments / event
sequences.  Definitions are translated from the source files.
-/

namespace Bluee

/-- The `DisasterData` Realm object (src/realm.ts, schema lines 31-43).
`_id` (a BSON ObjectId) is modelled as a natural number, `timestamp` (a JS
`Date`) as epoch milliseconds, `latitude`/`longitude` (JS doubles; the
repository only ever stores and forwards them, never computes with them) as
integers. -/
structure DisasterData where
  _id : Nat
  deviceId : String
  latitude : Int
  longitude : Int
  batteryLevel : String
  batteryState : String
  timestamp : Nat
  deriving Repr, DecidableEq

/-- A Realm instance: the set of stored records (in insertion order) together
with its `isClosed` flag. -/
structure RealmState where
  store : List DisasterData
  isClosed : Bool
  deriving Repr, DecidableEq

/-- `realm.objectForPrimaryKey('DisasterData', id)`: first record with the
given primary key. -/
def objectForPrimaryKey (store : List DisasterData) (i : Nat) : Option DisasterData :=
  store.find? (fun r => r._id == i)

/-- The body of the `realm.write` blocks of `updateDeviceData` and
`handleReceivedData`: look the primary key up, create the record only when it
is absent. -/
def createIfAbsent (store : List DisasterData) (r : DisasterData) : List DisasterData :=
  match objectForPrimaryKey store r._id with
  | some _ => store
  | none => store ++ [r]

/-- A record as it arrives from the wire and is handed to
`handleReceivedData`.  The `deviceId` field of a parsed JSON object may be
absent or `null` (modelled by `none`) or any string (`some s`, including the
empty string); the JavaScript guard `!receivedData.deviceId` rejects both
`none` and `some ""`. -/
structure RecvData where
  _id : Nat
  deviceId : Option String
  latitude : Int
  longitude : Int
  batteryLevel : String
  batteryState : String
  timestamp : Nat
  deriving Repr, DecidableEq

/-- The record that `realm.create('DisasterData', receivedData)` stores once
the guard has established that `deviceId` is a present, truthy string. -/
def RecvData.toDisasterData (d : RecvData) (dev : String) : DisasterData :=
  { _id := d._id, deviceId := dev, latitude := d.latitude, longitude := d.longitude,
    batteryLevel := d.batteryLevel, batteryState := d.batteryState,
    timestamp := d.timestamp }

/-- `handleReceivedData` (src/CommunicationService.ts lines 252-266), with the
outcome of the surrounding `realm.write` transaction made explicit:
`writeOk = false` models a transactional write failure, which the
`try/catch` of the source logs and swallows, leaving the store unchanged.
`received = none` models a falsy `receivedData` argument. -/
def handleReceivedDataWith (writeOk : Bool) (received : Option RecvData)
    (realm : RealmState) : RealmState :=
  match received with
  | none => realm
  | some d =>
    match d.deviceId with
    | none => realm
    | some dev =>
      if dev = "" ∨ realm.isClosed then realm
      else if writeOk then { realm with store := createIfAbsent realm.store (d.toDisasterData dev) }
      else realm

/-- `handleReceivedData` on the normal path where the Realm write transaction
commits. -/
def handleReceivedData (received : Option RecvData) (realm : RealmState) : RealmState :=
  handleReceivedDataWith true received realm

/-- The dictionary update performed for one record inside the `forEach` of
`generateDataSummary` (src/CommunicationService.ts lines 271-278): keep the
strictly larger timestamp per `deviceId`. -/
def updateSummary (summary : String → Option Nat) (r : DisasterData) :
    String → Option Nat :=
  fun d =>
    if d = r.deviceId then
      match summary r.deviceId with
      | none => some r.timestamp
      | some t => if t < r.timestamp then some r.timestamp else some t
    else summary d

/-- `generateDataSummary` (src/CommunicationService.ts lines 268-280): scan
every stored record, keeping the latest timestamp per origin device id.  The
resulting summary dictionary is modelled as a function from device id to
optional timestamp. -/
def generateDataSummary (store : List DisasterData) : String → Option Nat :=
  store.foldl updateSummary (fun _ => none)

/-- A remote summary as decoded from the peer: a dictionary from origin
device id to that origin's latest timestamp. -/
def RemoteSummary : Type := String → Option Nat

/-- `getMissingDataFromRemote` (src/CommunicationService.ts lines 282-293):
a local record is pushed when the remote summary has no entry for its origin,
or the remote's recorded timestamp for that origin is strictly older. -/
def getMissingDataFromRemote (remoteSummary : RemoteSummary)
    (store : List DisasterData) : List DisasterData :=
  store.filter (fun r =>
    match remoteSummary r.deviceId with
    | none => true
    | some t => decide (t < r.timestamp))

/-- The `CommunicationService` singleton's fields that `updateDeviceData`
touches: the in-memory `deviceData` cache and the optional `localRealm`
handle (src/CommunicationService.ts lines 42-43; the handle is assigned by
`startBackgroundCommunication(realmInstance)` in the src/realm.ts variant,
line 112). -/
structure Svc where
  localRealm : Option RealmState
  deviceData : Option DisasterData
  deriving Repr, DecidableEq

/-- `updateDeviceData` (src/CommunicationService.ts lines 56-66): cache the
record in memory, and only when a local Realm handle is attached and open,
insert the record into the store if its `_id` is absent. -/
def updateDeviceData (svc : Svc) (data : DisasterData) : Svc :=
  let svc' := { svc with deviceData := some data }
  match svc.localRealm with
  | none => svc'
  | some realm =>
    if realm.isClosed then svc'
    else { svc' with
      localRealm := some { realm with store := createIfAbsent realm.store data } }

/-- `startBackgroundCommunication(realmInstance)` of the src/realm.ts variant
(lines 111-112) attaches the Realm handle to the service. -/
def startBackgroundCommunication (svc : Svc) (realmInstance : RealmState) : Svc :=
  { svc with localRealm := some realmInstance }

/-- The per-record ingestion loop `receivedDataFromRemote.forEach(record =>
this.handleReceivedData(record, bgRealm))` (src/CommunicationService.ts lines
237-239), with an environment `fail` telling which positions of the batch
suffer a transactional write failure.  `i` is the position of the head of the
remaining batch. -/
def ingestBatchFrom (fail : Nat → Bool) : Nat → RealmState → List (Option RecvData) → RealmState
  | _, realm, [] => realm
  | i, realm, r :: rest =>
      ingestBatchFrom fail (i + 1) (handleReceivedDataWith (!fail i) r realm) rest

/-- The ingestion loop when every write transaction commits. -/
def ingestBatchOk (realm : RealmState) (batch : List (Option RecvData)) : RealmState :=
  ingestBatchFrom (fun _ => false) 0 realm batch

/-! ### Peer scanner (src/CommunicationService.ts lines 165-193)

The scanner state is the service's `isScanning` flag together with the number
of radio-level scans currently in flight (`activeScans`; the BLE stack itself
runs at most one, the counter records how many times `startDeviceScan` has
been issued without a matching stop, so that the single-flight guarantee is a
provable property of the guard rather than an assumption). -/

structure ScanSt where
  isScanning : Bool
  activeScans : Nat
  deriving Repr, DecidableEq

/-- `startBleCommunication` (src/CommunicationService.ts lines 165-193) /
`checkAndStartBleScan` (src/realm.ts lines 174-209): if a scan is already in
flight, return immediately; otherwise set the flag and issue
`manager.startDeviceScan`. -/
def startBleCommunication (st : ScanSt) : ScanSt :=
  if st.isScanning then st
  else { isScanning := true, activeScans := st.activeScans + 1 }

/-- The events that drive the scanner state. -/
inductive ScanEv where
  /-- A background-loop tick (or the restart in `connectToDevice`'s finally
  block) invoking `startBleCommunication`. -/
  | startScan
  /-- The scan listener receives a radio-layer error (lines 176-180): the
  radio stack has terminated the scan, the handler logs the error, clears
  `isScanning` and returns. -/
  | scanError
  /-- The scan listener receives a named device (lines 181-186):
  `manager.stopDeviceScan()` is called and `isScanning` cleared before the
  session is started. -/
  | deviceFound
  /-- The scan listener receives a device without a usable name: no state
  change. -/
  | deviceNoName
  /-- `stopBackgroundCommunication` (lines 116-131): `manager.stopDeviceScan()`
  and `isScanning = false`. -/
  | stopComm
  deriving Repr, DecidableEq

/-- One step of the scanner state machine. -/
def scanStep (st : ScanSt) : ScanEv → ScanSt
  | .startScan => startBleCommunication st
  | .scanError => { isScanning := false, activeScans := 0 }
  | .deviceFound => { isScanning := false, activeScans := 0 }
  | .deviceNoName => st
  | .stopComm => { isScanning := false, activeScans := 0 }

/-- The scanner state at service construction (src/CommunicationService.ts
line 44: `private isScanning = false`, no scan issued). -/
def scanInit : ScanSt := { isScanning := false, activeScans := 0 }

/-- Run a sequence of scanner events. -/
def runScan (evs : List ScanEv) : ScanSt := evs.foldl scanStep scanInit

/-! ### Session state machine: `connectToDevice`
(src/CommunicationService.ts lines 195-250)

The radio operations of the `try` block are modelled by an environment that
says how each `await`ed operation resolves; the body is the sequence of radio
actions the session performs, the `finally` block unconditionally appends the
disconnect and the scanner restart. -/

/-- Outcome of the summary exchange (lines 204-215): the characteristic write
can reject, the returned characteristic value can be `null` (which raises
`Did not receive a summary`), the base64/JSON decode can fail, or a remote
summary is obtained. -/
inductive SummaryXchg where
  | writeFail
  | noValue
  | badDecode
  | ok (rs : String → Option Nat)

/-- Outcome of the data-characteristic read (lines 228-240): the read can
reject, the value can be `null` (which skips ingestion without an error), the
decode can fail, or a batch of records is obtained. -/
inductive DataRead where
  | readFail
  | noValue
  | badDecode
  | ok (batch : List (Option RecvData))

/-- Resolution of every `await`ed radio operation of one session. -/
structure SessionEnv where
  connectOk : Bool
  discoverOk : Bool
  summaryXchg : SummaryXchg
  dataWriteOk : Bool
  dataRead : DataRead

/-- The radio-visible actions of a session, in order. -/
inductive Action where
  | connect
  | discover
  | writeSummary
  | writeData
  | readData
  | cancelConn
  | restartScan
  deriving Repr, DecidableEq

/-- The `try` block of `connectToDevice`: the actions attempted before the
first failure (a rejected `await` jumps to the `catch`, which only logs), and
the resulting local Realm state. -/
def sessionTry (realm : RealmState) (env : SessionEnv) : List Action × RealmState :=
  if !env.connectOk then ([.connect], realm)
  else if !env.discoverOk then ([.connect, .discover], realm)
  else
    match env.summaryXchg with
    | .writeFail => ([.connect, .discover, .writeSummary], realm)
    | .noValue => ([.connect, .discover, .writeSummary], realm)
    | .badDecode => ([.connect, .discover, .writeSummary], realm)
    | .ok rs =>
      let missing := getMissingDataFromRemote rs realm.store
      let pre := [Action.connect, .discover, .writeSummary] ++
        (if missing.length > 0 then [Action.writeData] else [])
      if missing.length > 0 ∧ !env.dataWriteOk then (pre, realm)
      else
        match env.dataRead with
        | .readFail => (pre ++ [.readData], realm)
        | .noValue => (pre ++ [.readData], realm)
        | .badDecode => (pre ++ [.readData], realm)
        | .ok batch => (pre ++ [.readData], ingestBatchOk realm batch)

/-- `connectToDevice`: the `try` block followed by the unconditional
`finally` block, which awaits `device.cancelConnection()`, clears
`isScanning` and re-arms the scanner via `startBleCommunication` (lines
243-249). -/
def connectToDevice (realm : RealmState) (env : SessionEnv) : List Action × RealmState :=
  let (body, realm') := sessionTry realm env
  (body ++ [.cancelConn, .restartScan], realm')

/-! ### Record codec (src/CommunicationService.ts lines 217-240)

`encodeBatch` is `Buffer.from(JSON.stringify(records)).toString('base64')` and
`decodeBatch` is `JSON.parse(Buffer.from(wire, 'base64').toString('utf8'))`.
`JSON.stringify` serializes a Realm `DisasterData` object through `toJSON`:
the BSON ObjectId `_id` becomes its 24-digit hex string and the `Date`
`timestamp` becomes its ISO-8601 string; `JSON.parse` returns plain JSON
values and performs no reverse conversion.  JSON values decoded from a batch
are flat objects whose fields are strings or integers. -/

/-- A decoded JSON field value of a wire record: a string or a number
(coordinates, the only numeric fields, are modelled as integers). -/
inductive JVal where
  | s (str : String)
  | n (int : Int)
  deriving Repr, DecidableEq

/-- The structural characters of the JSON syntax. -/
def quoteChar : Char := Char.ofNat 34

/-- Left curly bracket. -/
def lbraceChar : Char := Char.ofNat 123

/-- Right curly bracket. -/
def rbraceChar : Char := Char.ofNat 125

/-- Backslash. -/
def backslashChar : Char := Char.ofNat 92

/-- The decimal digit character for `n % 10`. -/
def digitChar (n : Nat) : Char := Char.ofNat (48 + n % 10)

/-- The decimal digits of `n`, most significant first (`fuel` bounds the
recursion; `natDigits` supplies enough). -/
def natDigitsCore : Nat → Nat → List Char
  | 0, _ => []
  | fuel + 1, n =>
      if n < 10 then [digitChar n]
      else natDigitsCore fuel (n / 10) ++ [digitChar (n % 10)]

/-- The decimal rendering of a natural number, as `JSON.stringify` prints
it. -/
def natDigits (n : Nat) : List Char := natDigitsCore (n + 1) n

/-- The decimal rendering of an integer. -/
def intChars : Int → List Char
  | .ofNat n => natDigits n
  | .negSucc n => '-' :: natDigits (n + 1)

/-- Fixed-width zero-padded decimal rendering (`w` digits, most significant
first), as used by `Date.prototype.toISOString`. -/
def padDigits : Nat → Nat → List Char
  | 0, _ => []
  | w + 1, n => padDigits w (n / 10) ++ [digitChar n]

/-- The hexadecimal digit character for `n % 16`. -/
def hexDigitChar (n : Nat) : Char :=
  if n % 16 < 10 then Char.ofNat (48 + n % 16) else Char.ofNat (87 + n % 16)

/-- Fixed-width hexadecimal rendering, least significant digit last. -/
def padHex : Nat → Nat → List Char
  | 0, _ => []
  | w + 1, n => padHex w (n / 16) ++ [hexDigitChar n]

/-- The 24-digit hex string a BSON ObjectId serializes to under
`JSON.stringify` (its `toJSON` is `toHexString`). -/
def hexId (n : Nat) : List Char := padHex 24 n

/-- The proleptic-Gregorian date for a day count since 1970-01-01
(the standard civil-from-days conversion used by `toISOString`). -/
def civilFromDays (days : Nat) : Nat × Nat × Nat :=
  let z := days + 719468
  let era := z / 146097
  let doe := z % 146097
  let yoe := (doe - doe / 1460 + doe / 36524 - doe / 146096) / 365
  let y := yoe + era * 400
  let doy := doe - (365 * yoe + yoe / 4 - yoe / 100)
  let mp := (5 * doy + 2) / 153
  let d := doy - (153 * mp + 2) / 5 + 1
  let m := if mp < 10 then mp + 3 else mp - 9
  (y + (if m ≤ 2 then 1 else 0), m, d)

/-- `Date.prototype.toISOString` for an epoch-millisecond instant:
`YYYY-MM-DDTHH:mm:ss.sssZ` (the rendering produced by `JSON.stringify` on a
`Date`; four-digit years, hence the year-10000 bound in `validRecord`). -/
def isoOf (t : Nat) : List Char :=
  let (y, mo, dy) := civilFromDays (t / 86400000)
  padDigits 4 y ++ ['-'] ++ padDigits 2 mo ++ ['-'] ++ padDigits 2 dy ++
    ['T'] ++ padDigits 2 (t / 3600000 % 24) ++ [':'] ++ padDigits 2 (t / 60000 % 60) ++
    [':'] ++ padDigits 2 (t / 1000 % 60) ++ ['.'] ++ padDigits 3 (t % 1000) ++ ['Z']

/-- The JSON object `JSON.stringify` produces for one `DisasterData` record:
fields in schema order, the ObjectId and the Date rendered as strings. -/
def recordToJson (r : DisasterData) : List (String × JVal) :=
  [("_id", .s (String.mk (hexId r._id))),
   ("deviceId", .s r.deviceId),
   ("latitude", .n r.latitude),
   ("longitude", .n r.longitude),
   ("batteryLevel", .s r.batteryLevel),
   ("batteryState", .s r.batteryState),
   ("timestamp", .s (String.mk (isoOf r.timestamp)))]

/-- Printing one JSON value. -/
def printJVal : JVal → List Char
  | .s str => quoteChar :: str.toList ++ [quoteChar]
  | .n i => intChars i

/-- Printing one `"key":value` pair. -/
def printPair (p : String × JVal) : List Char :=
  quoteChar :: p.1.toList ++ [quoteChar, ':'] ++ printJVal p.2

/-- Printing the comma-separated pairs of an object. -/
def printPairs : List (String × JVal) → List Char
  | [] => []
  | [p] => printPair p
  | p :: rest => printPair p ++ ',' :: printPairs rest

/-- Printing one JSON object. -/
def printObj (o : List (String × JVal)) : List Char :=
  lbraceChar :: printPairs o ++ [rbraceChar]

/-- Printing the comma-separated objects of an array. -/
def printObjs : List (List (String × JVal)) → List Char
  | [] => []
  | [o] => printObj o
  | o :: rest => printObj o ++ ',' :: printObjs rest

/-- Printing a JSON array of objects. -/
def printBatch (b : List (List (String × JVal))) : List Char :=
  '[' :: printObjs b ++ [']']

/-- `JSON.stringify(records)` for a batch of records. -/
def stringifyBatch (records : List DisasterData) : List Char :=
  printBatch (records.map recordToJson)

/-- The base64 alphabet. -/
def b64Alphabet : List Char :=
  "ABCDEFGHIJKLMNOPQRSTUVWXYZabcdefghijklmnopqrstuvwxyz0123456789+/".toList

/-- The base64 character for a sextet. -/
def b64Char (k : Nat) : Char := b64Alphabet.getD k 'A'

/-- The sextet of a base64 character (`none` for padding and any character
outside the alphabet, which Node's base64 decoder ignores). -/
def b64Idx (c : Char) : Option Nat := b64Alphabet.findIdx? (fun d => d == c)

/-- `Buffer.prototype.toString('base64')`: encode a byte list, three bytes to
four characters, padding the final group with `=`. -/
def b64EncodeBytes : List Nat → List Char
  | [] => []
  | [a] => [b64Char (a / 4), b64Char (a % 4 * 16), '=', '=']
  | [a, b] => [b64Char (a / 4), b64Char (a % 4 * 16 + b / 16), b64Char (b % 16 * 4), '=']
  | a :: b :: c :: rest =>
      b64Char (a / 4) :: b64Char (a % 4 * 16 + b / 16) :: b64Char (b % 16 * 4 + c / 64) ::
        b64Char (c % 64) :: b64EncodeBytes rest

/-- Regroup decoded sextets into bytes: four sextets yield three bytes, a
final group of two or three yields one or two bytes (the behaviour of
`Buffer.from(wire, 'base64')`). -/
def bytesOfSextets : List Nat → List Nat
  | s1 :: s2 :: s3 :: s4 :: rest =>
      (s1 * 4 + s2 / 16) :: (s2 % 16 * 16 + s3 / 4) :: (s3 % 4 * 64 + s4) ::
        bytesOfSextets rest
  | [s1, s2] => [s1 * 4 + s2 / 16]
  | [s1, s2, s3] => [s1 * 4 + s2 / 16, s2 % 16 * 16 + s3 / 4]
  | _ => []

/-- `Buffer.from(wire, 'base64')`: drop characters outside the alphabet
(padding included) and regroup the sextets into bytes.  Node's decoder never
throws. -/
def b64DecodeChars (cs : List Char) : List Nat :=
  bytesOfSextets (cs.filterMap b64Idx)

/-- `encodeBatch`: `JSON.stringify` then base64
(src/CommunicationService.ts line 220). -/
def encodeBatch (records : List DisasterData) : String :=
  String.mk (b64EncodeBytes ((stringifyBatch records).map Char.toNat))

/-- Parse the body of a JSON string up to the closing quote (the clean
fragment: no escape sequences). -/
def parseStrBody : List Char → Option (List Char × List Char)
  | [] => none
  | c :: rest =>
      if c = quoteChar then some ([], rest)
      else
        match parseStrBody rest with
        | some (s, r) => some (c :: s, r)
        | none => none

/-- Parse a quoted JSON string. -/
def parseJStr (cs : List Char) : Option (String × List Char) :=
  match cs with
  | [] => none
  | c :: rest =>
      if c = quoteChar then
        match parseStrBody rest with
        | some (s, r) => some (String.mk s, r)
        | none => none
      else none

/-- An ASCII decimal digit character. -/
def isDigitChar (c : Char) : Bool := 48 ≤ c.toNat && c.toNat ≤ 57

/-- The numeric value of a list of decimal digit characters. -/
def digitsVal (ds : List Char) : Nat :=
  ds.foldl (fun acc c => acc * 10 + (c.toNat - 48)) 0

/-- Parse a maximal run of decimal digits. -/
def parseNat (cs : List Char) : Option (Nat × List Char) :=
  let ds := cs.takeWhile isDigitChar
  if ds.isEmpty then none else some (digitsVal ds, cs.dropWhile isDigitChar)

/-- Parse a JSON integer (optional leading minus). -/
def parseInt (cs : List Char) : Option (Int × List Char) :=
  match cs with
  | [] => none
  | c :: rest =>
      if c = '-' then
        match parseNat rest with
        | some (n, r) => some (-(n : Int), r)
        | none => none
      else
        match parseNat cs with
        | some (n, r) => some ((n : Int), r)
        | none => none

/-- Parse a field value of a wire record: a string or an integer. -/
def parseJVal (cs : List Char) : Option (JVal × List Char) :=
  match cs with
  | [] => none
  | c :: _ =>
      if c = quoteChar then
        match parseJStr cs with
        | some (s, r) => some (.s s, r)
        | none => none
      else
        match parseInt cs with
        | some (i, r) => some (.n i, r)
        | none => none

/-- Parse the pairs of a non-empty object, consuming the closing curly
bracket (`fuel` bounds the recursion; callers supply the input length). -/
def parsePairsCore : Nat → List Char → Option (List (String × JVal) × List Char)
  | 0, _ => none
  | fuel + 1, cs =>
      match parseJStr cs with
      | none => none
      | some (k, r1) =>
          match r1 with
          | [] => none
          | c :: r2 =>
              if c = ':' then
                match parseJVal r2 with
                | none => none
                | some (v, r3) =>
                    match r3 with
                    | [] => none
                    | d :: r4 =>
                        if d = ',' then
                          match parsePairsCore fuel r4 with
                          | some (ps, r5) => some ((k, v) :: ps, r5)
                          | none => none
                        else if d = rbraceChar then some ([(k, v)], r4)
                        else none
              else none

/-- Parse one JSON object. -/
def parseObj (cs : List Char) : Option (List (String × JVal) × List Char) :=
  match cs with
  | [] => none
  | c :: rest =>
      if c = lbraceChar then
        match rest with
        | [] => none
        | d :: r2 =>
            if d = rbraceChar then some ([], r2)
            else parsePairsCore (rest.length + 1) rest
      else none

/-- Parse the objects of a non-empty array, consuming the closing square
bracket. -/
def parseObjsCore : Nat → List Char → Option (List (List (String × JVal)) × List Char)
  | 0, _ => none
  | fuel + 1, cs =>
      match parseObj cs with
      | none => none
      | some (o, r1) =>
          match r1 with
          | [] => none
          | d :: r2 =>
              if d = ',' then
                match parseObjsCore fuel r2 with
                | some (os, r3) => some (o :: os, r3)
                | none => none
              else if d = ']' then some ([o], r2)
              else none

/-- Parse a JSON array of flat objects (the shape of every encoded batch). -/
def parseBatch (cs : List Char) : Option (List (List (String × JVal)) × List Char) :=
  match cs with
  | [] => none
  | c :: rest =>
      if c = '[' then
        match rest with
        | [] => none
        | d :: r2 =>
            if d = ']' then some ([], r2)
            else parseObjsCore (rest.length + 1) rest
      else none

/-- `decodeBatch`: base64 decode then `JSON.parse`
(src/CommunicationService.ts line 235).  A parse failure is the thrown
`SyntaxError` of `JSON.parse`, surfaced as a decode error. -/
def decodeBatch (wire : String) : Except String (List (List (String × JVal))) :=
  let text := (b64DecodeChars wire.toList).map Char.ofNat
  match parseBatch text with
  | some (b, []) => .ok b
  | some (_, _ :: _) => .error "Unexpected non-whitespace character after JSON"
  | none => .error "Unexpected token in JSON"

/-- A character `JSON.stringify` passes through unescaped: printable ASCII
that is neither a quote nor a backslash. -/
@[reducible] def cleanChar (c : Char) : Prop :=
  32 ≤ c.toNat ∧ c.toNat < 127 ∧ c.toNat ≠ 34 ∧ c.toNat ≠ 92

/-- A string whose JSON rendering needs no escaping. -/
@[reducible] def cleanString (s : String) : Prop := ∀ c ∈ s.toList, cleanChar c

/-- A valid record: its string fields need no JSON escaping and its
timestamp falls before year 10000 (the range `toISOString` renders with a
four-digit year). -/
@[reducible] def validRecord (r : DisasterData) : Prop :=
  cleanString r.deviceId ∧ cleanString r.batteryLevel ∧ cleanString r.batteryState ∧
    r.timestamp < 253402300800000

/-- A valid batch: every record is valid. -/
@[reducible] def validBatch (b : List DisasterData) : Prop := ∀ r ∈ b, validRecord r

/-- A decoded JSON value whose string content is quote-free (no escaping
needed). -/
def cleanVal : JVal → Prop
  | .s str => ∀ c ∈ str.toList, c.toNat ≠ 34
  | .n _ => True

/-- A decoded JSON object with quote-free keys and values. -/
def cleanObj (o : List (String × JVal)) : Prop :=
  ∀ p ∈ o, (∀ c ∈ p.1.toList, c.toNat ≠ 34) ∧ cleanVal p.2

/-- Association-list lookup on a decoded JSON object. -/
def lookupField (o : List (String × JVal)) (k : String) : Option JVal :=
  match o.find? (fun p => p.1 == k) with
  | some p => some p.2
  | none => none

/-- Modelled from the spec (section 4.1): the latest timestamp among the
records of one origin, the value `buildSummary` is specified to map each
origin to.  Used as the reference against which `generateDataSummary` is
compared. -/
def latestTimestamp : List DisasterData → String → Option Nat
  | [], _ => none
  | r :: rest, d =>
      let m := latestTimestamp rest d
      if r.deviceId = d then
        match m with
        | none => some r.timestamp
        | some t => some (max r.timestamp t)
      else m

/-- Proof machinery: merge an accumulated summary entry with a computed
latest timestamp (taking the larger when both exist). -/
def mergeOpt : Option Nat → Option Nat → Option Nat
  | none, b => b
  | some t, none => some t
  | some t, some u => some (max t u)

/-- Sample record: origin A at timestamp 1 (test vector). -/
def recA1 : DisasterData :=
  { _id := 1, deviceId := "A", latitude := 10, longitude := 20,
    batteryLevel := "90%", batteryState := "unplugged", timestamp := 1 }

/-- Sample record: origin A at timestamp 3 (test vector). -/
def recA3 : DisasterData :=
  { _id := 2, deviceId := "A", latitude := 11, longitude := 21,
    batteryLevel := "80%", batteryState := "charging", timestamp := 3 }

/-- Sample record: origin B at timestamp 2 (test vector). -/
def recB2 : DisasterData :=
  { _id := 3, deviceId := "B", latitude := 12, longitude := 22,
    batteryLevel := "70%", batteryState := "full", timestamp := 2 }

/-- Sample wire record with a present device id (test vector). -/
def recvSample : RecvData :=
  { _id := 7, deviceId := some "C", latitude := -3, longitude := 4,
    batteryLevel := "30%", batteryState := "unplugged", timestamp := 42 }

/-- Sample wire record whose device id field is absent (test vector). -/
def recvNoDev : RecvData :=
  { _id := 8, deviceId := none, latitude := 0, longitude := 0,
    batteryLevel := "50%", batteryState := "full", timestamp := 5 }

/-! ## Theorems -/

/-- A record just created is found by its primary key. -/
theorem objectForPrimaryKey_createIfAbsent (store : List DisasterData) (r : DisasterData) :
    (objectForPrimaryKey (createIfAbsent store r) r._id).isSome := by
  unfold createIfAbsent
  cases h : objectForPrimaryKey store r._id with
  | some r0 => simp [h]
  | none =>
      unfold objectForPrimaryKey at h ⊢
      simp [List.find?_append, h]

/-- Creating a record whose primary key is already present leaves the store
unchanged. -/
theorem createIfAbsent_present (store : List DisasterData) (r r0 : DisasterData)
    (h : objectForPrimaryKey store r._id = some r0) :
    createIfAbsent store r = store := by
  unfold createIfAbsent
  simp [h]

/-- C1. `getMissingDataFromRemote` includes a local record `r` exactly when
the remote summary has no entry for `r`'s origin device id or the remote's
timestamp for that origin is strictly older than `r.timestamp`; a timestamp
tie excludes the record. -/
theorem getMissingDataFromRemote_spec (rs : RemoteSummary) (store : List DisasterData)
    (r : DisasterData) (hr : r ∈ store) :
    (r ∈ getMissingDataFromRemote rs store ↔
      rs r.deviceId = none ∨ ∃ t, rs r.deviceId = some t ∧ t < r.timestamp) ∧
    (rs r.deviceId = some r.timestamp → r ∉ getMissingDataFromRemote rs store) := by
  have hmem : r ∈ getMissingDataFromRemote rs store ↔
      (match rs r.deviceId with
       | none => true
       | some t => decide (t < r.timestamp)) = true := by
    unfold getMissingDataFromRemote
    rw [List.mem_filter]
    exact ⟨fun h => h.2, fun h => ⟨hr, h⟩⟩
  constructor
  · rw [hmem]
    cases h : rs r.deviceId with
    | none => simp
    | some t =>
        simp only [decide_eq_true_eq]
        constructor
        · intro ht
          exact Or.inr ⟨t, rfl, ht⟩
        · rintro (hc | ⟨u, hu, hlt⟩)
          · simp at hc
          · cases hu
            exact hlt
  · intro htie
    rw [hmem, htie]
    simp

/-- Witness for C1: with an empty remote summary a held record is pushed, and
with a remote summary already at the record's timestamp it is not. -/
theorem getMissingDataFromRemote_spec_witness :
    recA1 ∈ getMissingDataFromRemote (fun _ => none) [recA1] ∧
    recA1 ∉ getMissingDataFromRemote (fun _ => some 1) [recA1] := by
  constructor
  · exact (getMissingDataFromRemote_spec (fun _ => none) [recA1] recA1 (by simp)).1.mpr
      (Or.inl rfl)
  · exact (getMissingDataFromRemote_spec (fun _ => some 1) [recA1] recA1 (by simp)).2 rfl

/-- C3. Ingestion never mutates an existing record and is idempotent:
ingesting a wire record whose `_id` is already present leaves the Realm
unchanged, and ingesting the same record twice equals ingesting it once. -/
theorem handleReceivedData_idempotent (d : RecvData) (realm : RealmState) :
    ((objectForPrimaryKey realm.store d._id).isSome →
      handleReceivedData (some d) realm = realm) ∧
    handleReceivedData (some d) (handleReceivedData (some d) realm) =
      handleReceivedData (some d) realm := by
  cases hdev : d.deviceId with
  | none => simp [handleReceivedData, handleReceivedDataWith, hdev]
  | some dev =>
      by_cases hguard : dev = "" ∨ realm.isClosed
      · simp [handleReceivedData, handleReceivedDataWith, hdev, hguard]
      · constructor
        · intro hpresent
          obtain ⟨r0, hr0⟩ := Option.isSome_iff_exists.mp hpresent
          have hc : createIfAbsent realm.store (d.toDisasterData dev) = realm.store :=
            createIfAbsent_present realm.store (d.toDisasterData dev) r0 hr0
          simp [handleReceivedData, handleReceivedDataWith, hdev, hguard, hc]
        · obtain ⟨r0, hr0⟩ := Option.isSome_iff_exists.mp
            (objectForPrimaryKey_createIfAbsent realm.store (d.toDisasterData dev))
          have hstep :
              createIfAbsent (createIfAbsent realm.store (d.toDisasterData dev))
                (d.toDisasterData dev) = createIfAbsent realm.store (d.toDisasterData dev) :=
            createIfAbsent_present _ (d.toDisasterData dev) r0 hr0
          simp [handleReceivedData, handleReceivedDataWith, hdev, hguard, hstep]

/-- Witness for C3: ingesting a sample record twice equals ingesting it once,
and re-ingesting it once present is a no-op. -/
theorem handleReceivedData_idempotent_witness :
    handleReceivedData (some recvSample)
        (handleReceivedData (some recvSample) { store := [], isClosed := false }) =
      handleReceivedData (some recvSample) { store := [], isClosed := false } ∧
    handleReceivedData (some recvSample)
        { store := [recvSample.toDisasterData "C"], isClosed := false } =
      { store := [recvSample.toDisasterData "C"], isClosed := false } := by
  constructor
  · exact (handleReceivedData_idempotent recvSample { store := [], isClosed := false }).2
  · exact (handleReceivedData_idempotent recvSample
      { store := [recvSample.toDisasterData "C"], isClosed := false }).1 (by rfl)

/-- C10. A received record whose `deviceId` field is absent, null or the
empty string is silently dropped: the Realm is left unchanged whatever the
record's `_id`. -/
theorem handleReceivedData_drops_falsy_deviceId (d : RecvData) (realm : RealmState)
    (h : d.deviceId = none ∨ d.deviceId = some "") :
    handleReceivedData (some d) realm = realm := by
  unfold handleReceivedData handleReceivedDataWith
  rcases h with h | h <;> simp [h]

/-- Witness for C10: a record with no device id and a fresh unique `_id` is
not inserted. -/
theorem handleReceivedData_drops_falsy_deviceId_witness :
    handleReceivedData (some recvNoDev) { store := [], isClosed := false } =
      { store := [], isClosed := false } :=
  handleReceivedData_drops_falsy_deviceId recvNoDev { store := [], isClosed := false }
    (Or.inl rfl)

/-- C8 (amended): when a local Realm handle is attached and open,
`updateDeviceData` leaves the store holding a record with the submitted
record's `_id`: the record is inserted if absent and the store is untouched
if the `_id` is already present. -/
theorem updateDeviceData_stores_record (svc : Svc) (realm : RealmState)
    (data : DisasterData) (h1 : svc.localRealm = some realm)
    (h2 : realm.isClosed = false) :
    ∃ realm', (updateDeviceData svc data).localRealm = some realm' ∧
      (objectForPrimaryKey realm'.store data._id).isSome ∧
      ∀ r0, objectForPrimaryKey realm.store data._id = some r0 →
        realm'.store = realm.store := by
  unfold updateDeviceData
  rw [h1]
  simp only [h2, if_false]
  refine ⟨_, rfl, objectForPrimaryKey_createIfAbsent realm.store data, ?_⟩
  intro r0 hr0
  exact createIfAbsent_present realm.store data r0 hr0

/-- Witness for C8 (amended): submitting a sample record to a service with an
open, empty Realm stores it. -/
theorem updateDeviceData_stores_record_witness :
    ∃ realm',
      (updateDeviceData
          { localRealm := some { store := [], isClosed := false }, deviceData := none }
          recA1).localRealm = some realm' ∧
      (objectForPrimaryKey realm'.store recA1._id).isSome ∧
      ∀ r0, objectForPrimaryKey ([] : List DisasterData) recA1._id = some r0 →
        realm'.store = ([] : List DisasterData) :=
  updateDeviceData_stores_record
    { localRealm := some { store := [], isClosed := false }, deviceData := none }
    { store := [], isClosed := false } recA1 rfl rfl

/-- Counterexample for C8 as stated: on a service whose Realm handle is
closed (and likewise when no handle is attached, the situation of
src/CommunicationService.ts, where `localRealm` is never assigned),
`updateDeviceData` only caches the record in memory and the store does not
contain the submitted `_id` afterwards. -/
theorem updateDeviceData_closed_counterexample :
    (updateDeviceData
        { localRealm := some { store := [], isClosed := true }, deviceData := none }
        recA1).localRealm = some { store := [], isClosed := true } ∧
    objectForPrimaryKey ([] : List DisasterData) recA1._id = none := by
  constructor
  · rfl
  · rfl

/-- The summary fold computes, pointwise, the merge of the accumulator with
the latest timestamp of the scanned records. -/
theorem foldl_updateSummary (store : List DisasterData) :
    ∀ (init : String → Option Nat) (d : String),
      store.foldl updateSummary init d = mergeOpt (init d) (latestTimestamp store d) := by
  induction store with
  | nil =>
      intro init d
      cases h : init d <;> simp [latestTimestamp, mergeOpt, h]
  | cons r rest ih =>
      intro init d
      rw [List.foldl_cons, ih]
      by_cases hd : d = r.deviceId
      · subst hd
        cases hi : init r.deviceId with
        | none =>
            cases hl : latestTimestamp rest r.deviceId <;>
              simp [updateSummary, latestTimestamp, mergeOpt, hi, hl]
        | some t0 =>
            cases hl : latestTimestamp rest r.deviceId with
            | none =>
                simp only [updateSummary, latestTimestamp, mergeOpt, hi, hl, if_pos]
                split_ifs <;> simp <;> omega
            | some u0 =>
                simp only [updateSummary, latestTimestamp, mergeOpt, hi, hl, if_pos]
                split_ifs <;> simp <;> omega
      · have hd' : ¬(r.deviceId = d) := fun h => hd h.symm
        simp [updateSummary, latestTimestamp, hd, hd']

/-- `generateDataSummary` agrees pointwise with the spec-modelled latest
timestamp per origin. -/
theorem generateDataSummary_eq_latest (store : List DisasterData) (d : String) :
    generateDataSummary store d = latestTimestamp store d := by
  rw [generateDataSummary, foldl_updateSummary]
  rfl

/-- The latest timestamp of an origin is absent exactly when the origin has
no record in the store. -/
theorem latestTimestamp_eq_none (store : List DisasterData) (d : String) :
    latestTimestamp store d = none ↔ ∀ r ∈ store, r.deviceId ≠ d := by
  induction store with
  | nil => simp [latestTimestamp]
  | cons r rest ih =>
      by_cases hd : r.deviceId = d
      · cases hl : latestTimestamp rest d <;> simp [latestTimestamp, hd, hl]
      · simp [latestTimestamp, hd, ih]

/-- The latest timestamp of an origin is `t` exactly when some record of that
origin carries `t` and every record of that origin carries at most `t`. -/
theorem latestTimestamp_eq_some (store : List DisasterData) (d : String) :
    ∀ t, latestTimestamp store d = some t ↔
      (∃ r ∈ store, r.deviceId = d ∧ r.timestamp = t) ∧
        ∀ r ∈ store, r.deviceId = d → r.timestamp ≤ t := by
  induction store with
  | nil => simp [latestTimestamp]
  | cons r rest ih =>
      intro t
      by_cases hd : r.deviceId = d
      · cases hl : latestTimestamp rest d with
        | none =>
            have hnone := (latestTimestamp_eq_none rest d).mp hl
            simp only [latestTimestamp, hd, hl, if_pos, List.mem_cons]
            constructor
            · intro h
              rw [Option.some_inj] at h
              subst h
              refine ⟨⟨r, Or.inl rfl, hd, rfl⟩, ?_⟩
              rintro r' (rfl | hr') h'
              · exact Nat.le_refl _
              · exact absurd h' (hnone r' hr')
            · rintro ⟨⟨r', hr', hdev', hts'⟩, hbound⟩
              rcases hr' with rfl | hr'
              · rw [hts']
              · exact absurd hdev' (hnone r' hr')
        | some u =>
            have hu := (ih u).mp hl
            simp only [latestTimestamp, hd, hl, if_pos, List.mem_cons]
            constructor
            · intro h
              rw [Option.some_inj] at h
              subst h
              rcases hu with ⟨⟨ru, hru, hdevu, htsu⟩, hboundu⟩
              constructor
              · rcases Nat.le_total u r.timestamp with hle | hle
                · exact ⟨r, Or.inl rfl, hd, (Nat.max_eq_left hle).symm⟩
                · exact ⟨ru, Or.inr hru, hdevu, by rw [htsu]; exact (Nat.max_eq_right hle).symm⟩
              · rintro r' (rfl | hr') h'
                · exact Nat.le_max_left _ _
                · exact Nat.le_trans (hboundu r' hr' h') (Nat.le_max_right _ _)
            · rintro ⟨⟨r', hr', hdev', hts'⟩, hbound⟩
              rcases hu with ⟨⟨ru, hru, hdevu, htsu⟩, hboundu⟩
              have h1 : r.timestamp ≤ t := hbound r (Or.inl rfl) hd
              have h2 : u ≤ t := by
                rw [← htsu]
                exact hbound ru (Or.inr hru) hdevu
              have h3 : t ≤ max r.timestamp u := by
                rcases hr' with rfl | hr'
                · rw [← hts']
                  exact Nat.le_max_left _ _
                · rw [← hts']
                  exact Nat.le_trans (hboundu r' hr' hdev') (Nat.le_max_right _ _)
              rw [Option.some_inj]
              omega
      · have hstep : latestTimestamp (r :: rest) d = latestTimestamp rest d := by
          simp [latestTimestamp, hd]
        rw [hstep, ih t]
        simp only [List.mem_cons]
        constructor
        · rintro ⟨⟨r', hr', hdev', hts'⟩, hbound⟩
          refine ⟨⟨r', Or.inr hr', hdev', hts'⟩, ?_⟩
          rintro r'' (rfl | hr'') h''
          · exact absurd h'' hd
          · exact hbound r'' hr'' h''
        · rintro ⟨⟨r', hr', hdev', hts'⟩, hbound⟩
          rcases hr' with rfl | hr'
          · exact absurd hdev' hd
          · exact ⟨⟨r', hr', hdev', hts'⟩, fun r'' hr'' h'' => hbound r'' (Or.inr hr'') h''⟩

/-- The latest timestamp per origin is invariant under permutation of the
store. -/
theorem latestTimestamp_perm {s1 s2 : List DisasterData} (h : s1.Perm s2) (d : String) :
    latestTimestamp s1 d = latestTimestamp s2 d := by
  induction h with
  | nil => rfl
  | cons x h ih => simp [latestTimestamp, ih]
  | swap x y l =>
      by_cases hx : x.deviceId = d <;> by_cases hy : y.deviceId = d <;>
        cases hl : latestTimestamp l d <;>
        simp [latestTimestamp, hx, hy, hl] <;> omega
  | trans h1 h2 ih1 ih2 => exact ih1.trans ih2

/-- C2. `generateDataSummary` maps an origin to `some t` exactly when `t` is
the maximum timestamp among that origin's records, and its result is the same
for any two stores that are permutations of each other. -/
theorem generateDataSummary_spec (store store' : List DisasterData) (d : String)
    (t : Nat) (hperm : store.Perm store') :
    (generateDataSummary store d = some t ↔
      (∃ r ∈ store, r.deviceId = d ∧ r.timestamp = t) ∧
        ∀ r ∈ store, r.deviceId = d → r.timestamp ≤ t) ∧
    generateDataSummary store d = generateDataSummary store' d := by
  constructor
  · rw [generateDataSummary_eq_latest]
    exact latestTimestamp_eq_some store d t
  · rw [generateDataSummary_eq_latest, generateDataSummary_eq_latest]
    exact latestTimestamp_perm hperm d

/-- Witness for C2: a store holding records for origins A@1, A@3 and B@2
yields summary A at 3 and B at 2, identically for a reordered insertion. -/
theorem generateDataSummary_spec_witness :
    generateDataSummary [recA1, recA3, recB2] "A" =
        generateDataSummary [recA3, recA1, recB2] "A" ∧
    generateDataSummary [recA1, recA3, recB2] "A" = some 3 ∧
    generateDataSummary [recA1, recA3, recB2] "B" = some 2 :=
  ⟨(generateDataSummary_spec [recA1, recA3, recB2] [recA3, recA1, recB2] "A" 3
      (List.Perm.swap recA3 recA1 [recB2])).2, by rfl, by rfl⟩

/-- A failed write transaction leaves the Realm unchanged (the `catch` of
`handleReceivedData` only logs). -/
theorem handleReceivedDataWith_false (received : Option RecvData) (realm : RealmState) :
    handleReceivedDataWith false received realm = realm := by
  unfold handleReceivedDataWith
  cases received with
  | none => rfl
  | some d =>
      cases hdev : d.deviceId with
      | none => simp [hdev]
      | some dev => simp [hdev]

/-- Shifting the position counter of the ingestion loop into the failure
environment. -/
theorem ingestBatchFrom_shift (fail : Nat → Bool) (batch : List (Option RecvData)) :
    ∀ (i : Nat) (realm : RealmState),
      ingestBatchFrom fail (i + 1) realm batch =
        ingestBatchFrom (fun j => fail (j + 1)) i realm batch := by
  induction batch with
  | nil => intro i realm; rfl
  | cons r rest ih =>
      intro i realm
      simp only [ingestBatchFrom]
      rw [ih]

/-- Unfolding one step of the all-writes-commit ingestion loop. -/
theorem ingestBatchOk_cons (realm : RealmState) (r : Option RecvData)
    (rest : List (Option RecvData)) :
    ingestBatchOk realm (r :: rest) = ingestBatchOk (handleReceivedData r realm) rest := by
  unfold ingestBatchOk
  simp only [ingestBatchFrom]
  rw [ingestBatchFrom_shift]
  rfl

/-- C7. Batch ingestion is best-effort per record: a write failure on the
record at position `k` leaves the loop's final Realm state exactly as if the
batch had been ingested without that record, so every other record of the
batch is still ingested. -/
theorem ingestBatch_best_effort (realm : RealmState) (batch : List (Option RecvData))
    (k : Nat) :
    ingestBatchFrom (fun i => i == k) 0 realm batch =
      ingestBatchOk realm (batch.eraseIdx k) := by
  induction batch generalizing realm k with
  | nil => cases k <;> rfl
  | cons r rest ih =>
      cases k with
      | zero =>
          simp only [ingestBatchFrom, List.eraseIdx]
          rw [ingestBatchFrom_shift]
          have hf : (fun j => ((j + 1 : Nat) == 0)) = (fun _ : Nat => false) := by
            funext j
            simp
          rw [hf]
          rw [show (!((0 : Nat) == 0)) = false from rfl]
          rw [handleReceivedDataWith_false]
          rfl
      | succ k' =>
          simp only [ingestBatchFrom, List.eraseIdx]
          rw [ingestBatchFrom_shift]
          have hf : (fun j => ((j + 1 : Nat) == k' + 1)) = (fun j : Nat => (j == k')) := by
            funext j
            rw [Bool.eq_iff_iff]
            simp only [beq_iff_eq]
            omega
          rw [hf]
          rw [show ((0 : Nat) == k' + 1) = false from rfl]
          rw [ingestBatchOk_cons]
          exact ih (handleReceivedData r realm) k'

/-- One scanner step preserves the single-flight invariant. -/
theorem scanStep_invariant (st : ScanSt) (e : ScanEv)
    (h : st.activeScans ≤ 1 ∧ (st.isScanning = true ↔ st.activeScans = 1)) :
    (scanStep st e).activeScans ≤ 1 ∧
      ((scanStep st e).isScanning = true ↔ (scanStep st e).activeScans = 1) := by
  obtain ⟨h1, h2⟩ := h
  cases e with
  | startScan =>
      by_cases hs : st.isScanning
      · have h3 : st.activeScans = 1 := h2.mp hs
        simp [scanStep, startBleCommunication, hs, h3]
      · have h0 : st.activeScans = 0 := by
          rcases Nat.lt_or_ge st.activeScans 1 with hlt | hge
          · omega
          · exact absurd (h2.mpr (by omega)) (by simpa using hs)
        simp [scanStep, startBleCommunication, hs, h0]
  | scanError => simp [scanStep]
  | deviceFound => simp [scanStep]
  | deviceNoName => exact ⟨h1, h2⟩
  | stopComm => simp [scanStep]

/-- The single-flight invariant holds along every event sequence. -/
theorem foldl_scanStep_invariant : ∀ (evs : List ScanEv) (st : ScanSt),
    st.activeScans ≤ 1 ∧ (st.isScanning = true ↔ st.activeScans = 1) →
    (evs.foldl scanStep st).activeScans ≤ 1 ∧
      ((evs.foldl scanStep st).isScanning = true ↔
        (evs.foldl scanStep st).activeScans = 1) := by
  intro evs
  induction evs with
  | nil => intro st h; exact h
  | cons e rest ih => intro st h; exact ih (scanStep st e) (scanStep_invariant st e h)

/-- C5. Scanning is single-flight: along every reachable scanner state at
most one scan is active, a second back-to-back `startBleCommunication` call
is a no-op, and two back-to-back calls from an idle state leave exactly one
active scan. -/
theorem startBleCommunication_single_flight (evs : List ScanEv) :
    (runScan evs).activeScans ≤ 1 ∧
    startBleCommunication (startBleCommunication (runScan evs)) =
      startBleCommunication (runScan evs) ∧
    ((runScan evs).activeScans = 0 →
      (startBleCommunication (startBleCommunication (runScan evs))).activeScans = 1) := by
  have hinv := foldl_scanStep_invariant evs scanInit ⟨by decide, by decide⟩
  rw [show runScan evs = evs.foldl scanStep scanInit from rfl]
  obtain ⟨h1, h2⟩ := hinv
  refine ⟨h1, ?_, ?_⟩
  · by_cases hs : (evs.foldl scanStep scanInit).isScanning
    · simp [startBleCommunication, hs]
    · simp [startBleCommunication, hs]
  · intro h0
    have hs : (evs.foldl scanStep scanInit).isScanning = false := by
      cases hfs : (evs.foldl scanStep scanInit).isScanning
      · rfl
      · exact absurd (h2.mp hfs) (by omega)
    simp [startBleCommunication, hs, h0]

/-- Witness for C5: from the initial idle state, two back-to-back start calls
yield exactly one active scan. -/
theorem startBleCommunication_single_flight_witness :
    (runScan []).activeScans = 0 ∧
    (startBleCommunication (startBleCommunication (runScan []))).activeScans = 1 :=
  ⟨rfl, (startBleCommunication_single_flight []).2.2 rfl⟩

/-- C9. A radio-layer scan error stops scanning and clears the single-flight
flag — from any state the error handler leaves the scanner idle with no
active scan — and a subsequent tick's start call succeeds in starting exactly
one scan again. -/
theorem scanError_recovers (st : ScanSt) :
    scanStep st .scanError = { isScanning := false, activeScans := 0 } ∧
    startBleCommunication (scanStep st .scanError) =
      { isScanning := true, activeScans := 1 } :=
  ⟨rfl, rfl⟩

/-- C6. Session resource safety: on every path through `connectToDevice` —
success, connect or discovery failure, summary or decode failure, delta
exchange failure — the trace is the `try`-block body (which never touches the
connection teardown or the scanner) followed by exactly one
`cancelConnection` and then exactly one scanner restart. -/
theorem connectToDevice_resource_safety (realm : RealmState) (env : SessionEnv) :
    ∃ body, (connectToDevice realm env).1 = body ++ [Action.cancelConn, Action.restartScan] ∧
      Action.cancelConn ∉ body ∧ Action.restartScan ∉ body ∧
      (connectToDevice realm env).1.count Action.cancelConn = 1 ∧
      (connectToDevice realm env).1.count Action.restartScan = 1 := by
  have hmem : Action.cancelConn ∉ (sessionTry realm env).1 ∧
      Action.restartScan ∉ (sessionTry realm env).1 := by
    rcases env with ⟨c, disc, sx, w, dr⟩
    cases c <;> cases disc <;> cases sx <;> cases dr <;>
      simp [sessionTry] <;> split_ifs <;> simp
  obtain ⟨h1, h2⟩ := hmem
  have htrace : (connectToDevice realm env).1 =
      (sessionTry realm env).1 ++ [Action.cancelConn, Action.restartScan] := by
    unfold connectToDevice
    rfl
  refine ⟨(sessionTry realm env).1, htrace, h1, h2, ?_, ?_⟩
  · rw [htrace, List.count_append, List.count_eq_zero.mpr h1]
    rfl
  · rw [htrace, List.count_append, List.count_eq_zero.mpr h2]
    rfl

/-- Evaluating `Char.ofNat` below the surrogate range. -/
theorem toNat_Char_ofNat {n : Nat} (h : n < 55296) : (Char.ofNat n).toNat = n := by
  have hv : Nat.isValidChar n := Or.inl h
  simp only [Char.ofNat, hv, dif_pos, Char.ofNatAux, Char.toNat]
  rfl

/-- The code of a decimal digit character. -/
theorem digitChar_toNat (m : Nat) : (digitChar m).toNat = 48 + m % 10 := by
  have h : 48 + m % 10 < 55296 := by
    have := Nat.mod_lt m (show 0 < 10 by omega)
    omega
  exact toNat_Char_ofNat h

/-- Every character of `natDigitsCore` is a decimal digit. -/
theorem natDigitsCore_digits (fuel : Nat) :
    ∀ n c, c ∈ natDigitsCore fuel n → 48 ≤ c.toNat ∧ c.toNat ≤ 57 := by
  induction fuel with
  | zero =>
      intro n c hc
      simp [natDigitsCore] at hc
  | succ f ih =>
      intro n c hc
      unfold natDigitsCore at hc
      by_cases h : n < 10
      · simp only [h, if_pos, List.mem_singleton] at hc
        subst hc
        rw [digitChar_toNat]
        omega
      · simp only [h, if_neg, if_false, List.mem_append, List.mem_singleton,
          Bool.false_eq_true] at hc
        rcases hc with hc | hc
        · exact ih _ c hc
        · subst hc
          rw [digitChar_toNat]
          omega

/-- Every character of `padDigits` is a decimal digit. -/
theorem padDigits_digits (w : Nat) :
    ∀ n c, c ∈ padDigits w n → 48 ≤ c.toNat ∧ c.toNat ≤ 57 := by
  induction w with
  | zero =>
      intro n c hc
      simp [padDigits] at hc
  | succ w ih =>
      intro n c hc
      unfold padDigits at hc
      rw [List.mem_append, List.mem_singleton] at hc
      rcases hc with hc | hc
      · exact ih _ c hc
      · subst hc
        rw [digitChar_toNat]
        omega

/-- Hexadecimal digit characters are printable ASCII and not a quote. -/
theorem hexDigitChar_safe (n : Nat) :
    (hexDigitChar n).toNat < 127 ∧ (hexDigitChar n).toNat ≠ 34 := by
  unfold hexDigitChar
  have h16 := Nat.mod_lt n (show 0 < 16 by omega)
  split_ifs with h
  · rw [toNat_Char_ofNat (by omega)]
    omega
  · rw [toNat_Char_ofNat (by omega)]
    omega

/-- Every character of `padHex` is printable ASCII and not a quote. -/
theorem padHex_safe (w : Nat) :
    ∀ n c, c ∈ padHex w n → c.toNat < 127 ∧ c.toNat ≠ 34 := by
  induction w with
  | zero =>
      intro n c hc
      simp [padHex] at hc
  | succ w ih =>
      intro n c hc
      unfold padHex at hc
      rw [List.mem_append, List.mem_singleton] at hc
      rcases hc with hc | hc
      · exact ih _ c hc
      · subst hc
        exact hexDigitChar_safe n

/-- Splitting a membership bound across an append. -/
theorem forall_mem_append_intro {P : Char → Prop} {l1 l2 : List Char}
    (h1 : ∀ c ∈ l1, P c) (h2 : ∀ c ∈ l2, P c) : ∀ c ∈ l1 ++ l2, P c := by
  intro c hc
  rcases List.mem_append.mp hc with h | h
  · exact h1 c h
  · exact h2 c h

/-- Every character of an ISO-8601 rendering is printable ASCII and not a
quote. -/
theorem isoOf_safe (t : Nat) : ∀ c ∈ isoOf t, c.toNat < 127 ∧ c.toNat ≠ 34 := by
  have hseg : ∀ (w n : Nat), ∀ c ∈ padDigits w n, c.toNat < 127 ∧ c.toNat ≠ 34 := by
    intro w n c hc
    have := padDigits_digits w n c hc
    omega
  unfold isoOf
  rcases hp : civilFromDays (t / 86400000) with ⟨y, mo, dy⟩
  repeat' apply forall_mem_append_intro
  all_goals first
    | exact hseg _ _
    | decide
    | (intro c hc
       rw [List.mem_singleton] at hc
       subst hc
       rw [digitChar_toNat]
       omega)

/-- Every character of `natDigits` is printable ASCII and not a quote. -/
theorem natDigits_safe (n : Nat) : ∀ c ∈ natDigits n, c.toNat < 127 ∧ c.toNat ≠ 34 := by
  intro c hc
  have := natDigitsCore_digits (n + 1) n c hc
  omega

/-- Every character of an integer rendering is printable ASCII and not a
quote. -/
theorem intChars_safe (i : Int) : ∀ c ∈ intChars i, c.toNat < 127 ∧ c.toNat ≠ 34 := by
  cases i with
  | ofNat n => exact natDigits_safe n
  | negSucc n =>
      intro c hc
      rcases List.mem_cons.mp hc with hc | hc
      · subst hc
        decide
      · exact natDigits_safe (n + 1) c hc

/-- The base64 index of an alphabet character recovers its sextet. -/
theorem b64Idx_b64Char : ∀ k, k < 64 → b64Idx (b64Char k) = some k := by
  decide

/-- The base64 index of the padding character. -/
theorem b64Idx_pad : b64Idx '=' = none := by
  decide

/-- Base64 decoding inverts base64 encoding on byte lists. -/
theorem b64_roundtrip : ∀ (bytes : List Nat), (∀ x ∈ bytes, x < 256) →
    b64DecodeChars (b64EncodeBytes bytes) = bytes := by
  intro bytes
  induction bytes using b64EncodeBytes.induct with
  | case1 => intro _; rfl
  | case2 a =>
      intro h
      have ha : a < 256 := h a (by simp)
      unfold b64DecodeChars b64EncodeBytes
      rw [show [b64Char (a / 4), b64Char (a % 4 * 16), '=', '='].filterMap b64Idx =
          [a / 4, a % 4 * 16] from by
        simp [List.filterMap_cons, b64Idx_b64Char _ (by omega : a / 4 < 64),
          b64Idx_b64Char _ (by omega : a % 4 * 16 < 64), b64Idx_pad]]
      unfold bytesOfSextets
      simp only [List.cons.injEq]
      exact ⟨by omega, trivial⟩
  | case3 a b =>
      intro h
      have ha : a < 256 := h a (by simp)
      have hb : b < 256 := h b (by simp)
      unfold b64DecodeChars b64EncodeBytes
      rw [show [b64Char (a / 4), b64Char (a % 4 * 16 + b / 16), b64Char (b % 16 * 4),
          '='].filterMap b64Idx = [a / 4, a % 4 * 16 + b / 16, b % 16 * 4] from by
        simp [List.filterMap_cons, b64Idx_b64Char _ (by omega : a / 4 < 64),
          b64Idx_b64Char _ (by omega : a % 4 * 16 + b / 16 < 64),
          b64Idx_b64Char _ (by omega : b % 16 * 4 < 64), b64Idx_pad]]
      unfold bytesOfSextets
      simp only [List.cons.injEq]
      exact ⟨by omega, by omega, trivial⟩
  | case4 a b c rest ih =>
      intro h
      have ha : a < 256 := h a (by simp)
      have hb : b < 256 := h b (by simp)
      have hc : c < 256 := h c (by simp)
      have hrest : ∀ x ∈ rest, x < 256 := fun x hx => h x (by simp [hx])
      have htail := ih hrest
      unfold b64DecodeChars b64EncodeBytes
      rw [List.filterMap_cons, b64Idx_b64Char _ (by omega : a / 4 < 64)]
      rw [List.filterMap_cons, b64Idx_b64Char _ (by omega : a % 4 * 16 + b / 16 < 64)]
      rw [List.filterMap_cons, b64Idx_b64Char _ (by omega : b % 16 * 4 + c / 64 < 64)]
      rw [List.filterMap_cons, b64Idx_b64Char _ (by omega : c % 64 < 64)]
      unfold bytesOfSextets
      unfold b64DecodeChars at htail
      rw [htail]
      simp only [List.cons.injEq]
      exact ⟨by omega, by omega, by omega, trivial⟩

/-- Extending a membership bound across a cons cell. -/
theorem forall_mem_cons_intro {P : Char → Prop} {c0 : Char} {l : List Char}
    (h0 : P c0) (h : ∀ c ∈ l, P c) : ∀ c ∈ c0 :: l, P c := by
  intro c hc
  rcases List.mem_cons.mp hc with rfl | hc
  · exact h0
  · exact h c hc

/-- `parseStrBody` inverts printing of a quote-free string body. -/
theorem parseStrBody_roundtrip (s : List Char) (rest : List Char)
    (h : ∀ c ∈ s, c.toNat ≠ 34) :
    parseStrBody (s ++ quoteChar :: rest) = some (s, rest) := by
  induction s with
  | nil => simp [parseStrBody]
  | cons c cs ih =>
      have hc : c.toNat ≠ 34 := h c (by simp)
      have hcq : ¬(c = quoteChar) := by
        intro he
        subst he
        exact hc (by decide)
      rw [List.cons_append]
      unfold parseStrBody
      rw [if_neg hcq, ih (fun x hx => h x (by simp [hx]))]

/-- `parseJStr` inverts printing of a quoted clean string. -/
theorem parseJStr_roundtrip (s : String) (rest : List Char)
    (h : ∀ c ∈ s.toList, c.toNat ≠ 34) :
    parseJStr (quoteChar :: (s.toList ++ quoteChar :: rest)) = some (s, rest) := by
  simp only [parseJStr, if_true]
  rw [parseStrBody_roundtrip s.toList rest h]
  rfl

/-- Taking and dropping the digit prefix of a digit run followed by a
non-digit remainder. -/
theorem takeWhile_digits (ds : List Char) (rest : List Char)
    (hd : ∀ c ∈ ds, isDigitChar c = true)
    (hr : ∀ c, rest.head? = some c → isDigitChar c = false) :
    (ds ++ rest).takeWhile isDigitChar = ds ∧
      (ds ++ rest).dropWhile isDigitChar = rest := by
  induction ds with
  | nil =>
      simp only [List.nil_append]
      cases rest with
      | nil => simp
      | cons c cs =>
          have hf := hr c rfl
          simp [List.takeWhile_cons, List.dropWhile_cons, hf]
  | cons d ds ih =>
      have hdd : isDigitChar d = true := hd d (by simp)
      obtain ⟨h1, h2⟩ := ih (fun c hc => hd c (by simp [hc]))
      simp [List.takeWhile_cons, List.dropWhile_cons, hdd, h1, h2]

/-- The numeric value of a digit list extended by one digit. -/
theorem digitsVal_append_digit (ds : List Char) (c : Char) :
    digitsVal (ds ++ [c]) = digitsVal ds * 10 + (c.toNat - 48) := by
  unfold digitsVal
  rw [List.foldl_append]
  rfl

/-- `digitsVal` recovers the number printed by `natDigitsCore`. -/
theorem digitsVal_natDigitsCore : ∀ (fuel n : Nat), n < fuel →
    digitsVal (natDigitsCore fuel n) = n := by
  intro fuel
  induction fuel with
  | zero => intro n h; omega
  | succ f ih =>
      intro n h
      unfold natDigitsCore
      by_cases h10 : n < 10
      · rw [if_pos h10]
        show digitsVal [digitChar n] = n
        unfold digitsVal
        simp [digitChar_toNat]
        omega
      · rw [if_neg h10, digitsVal_append_digit, ih (n / 10) (by omega), digitChar_toNat]
        omega

/-- Every character printed by `natDigitsCore` passes the digit test. -/
theorem natDigitsCore_digit_chars (fuel n : Nat) :
    ∀ c ∈ natDigitsCore fuel n, isDigitChar c = true := by
  intro c hc
  have := natDigitsCore_digits fuel n c hc
  unfold isDigitChar
  simp only [Bool.and_eq_true, decide_eq_true_eq]
  omega

/-- A printed natural number is never empty. -/
theorem natDigits_ne_nil (n : Nat) : natDigits n ≠ [] := by
  unfold natDigits natDigitsCore
  by_cases h : n < 10 <;> simp [h]

/-- `parseNat` inverts `natDigits` when the remainder starts with a
non-digit. -/
theorem parseNat_roundtrip (n : Nat) (rest : List Char)
    (hr : ∀ c, rest.head? = some c → isDigitChar c = false) :
    parseNat (natDigits n ++ rest) = some (n, rest) := by
  obtain ⟨h1, h2⟩ := takeWhile_digits (natDigits n) rest
    (natDigitsCore_digit_chars (n + 1) n) hr
  have hne : (natDigits n).isEmpty = false := by
    cases hnd : natDigits n with
    | nil => exact absurd hnd (natDigits_ne_nil n)
    | cons d ds => rfl
  unfold parseNat
  rw [h1, h2]
  simp only [hne, Bool.false_eq_true, if_false]
  rw [show digitsVal (natDigits n) = n from digitsVal_natDigitsCore (n + 1) n (by omega)]

/-- `parseInt` inverts `intChars` when the remainder starts with a
non-digit. -/
theorem parseInt_roundtrip (i : Int) (rest : List Char)
    (hr : ∀ c, rest.head? = some c → isDigitChar c = false) :
    parseInt (intChars i ++ rest) = some (i, rest) := by
  cases i with
  | ofNat n =>
      obtain ⟨d, ds, hds⟩ : ∃ d ds, natDigits n = d :: ds := by
        cases hnd : natDigits n with
        | nil => exact absurd hnd (natDigits_ne_nil n)
        | cons d ds => exact ⟨d, ds, rfl⟩
      have hd_digit : isDigitChar d = true :=
        natDigitsCore_digit_chars (n + 1) n d (by rw [show natDigitsCore (n + 1) n = natDigits n from rfl, hds]; simp)
      have hdm : ¬(d = '-') := by
        intro he
        subst he
        revert hd_digit
        decide
      show parseInt (natDigits n ++ rest) = some ((n : Int), rest)
      rw [hds, List.cons_append]
      simp only [parseInt]
      rw [if_neg hdm, ← List.cons_append, ← hds, parseNat_roundtrip n rest hr]
  | negSucc n =>
      show parseInt (('-' :: natDigits (n + 1)) ++ rest) = some (Int.negSucc n, rest)
      rw [List.cons_append]
      simp only [parseInt, if_true]
      rw [parseNat_roundtrip (n + 1) rest hr]
      show some (-(((n + 1 : Nat) : Int)), rest) = some (Int.negSucc n, rest)
      have hneg : (-(((n + 1 : Nat) : Int))) = Int.negSucc n := by
        rw [Int.negSucc_eq]
        push_cast
        ring
      rw [hneg]

/-- `parseJVal` inverts `printJVal` on clean values when the remainder starts
with a non-digit. -/
theorem parseJVal_roundtrip (v : JVal) (rest : List Char)
    (hv : cleanVal v)
    (hr : ∀ c, rest.head? = some c → isDigitChar c = false) :
    parseJVal (printJVal v ++ rest) = some (v, rest) := by
  cases v with
  | s str =>
      show parseJVal ((quoteChar :: (str.toList ++ [quoteChar])) ++ rest) = _
      rw [List.cons_append, List.append_assoc]
      simp only [parseJVal, if_true]
      rw [show ([quoteChar] ++ rest : List Char) = quoteChar :: rest from rfl]
      rw [parseJStr_roundtrip str rest hv]
  | n i =>
      have hsplit : ∃ d ds, intChars i = d :: ds ∧ ¬(d = quoteChar) := by
        cases i with
        | ofNat n =>
            obtain ⟨d, ds, hds⟩ : ∃ d ds, natDigits n = d :: ds := by
              cases hnd : natDigits n with
              | nil => exact absurd hnd (natDigits_ne_nil n)
              | cons d ds => exact ⟨d, ds, rfl⟩
            refine ⟨d, ds, hds, ?_⟩
            have hd_digit : isDigitChar d = true :=
              natDigitsCore_digit_chars (n + 1) n d (by
                rw [show natDigitsCore (n + 1) n = natDigits n from rfl, hds]
                simp)
            intro he
            subst he
            revert hd_digit
            decide
        | negSucc n => exact ⟨'-', natDigits (n + 1), rfl, by decide⟩
      obtain ⟨d, ds, hds, hdq⟩ := hsplit
      show parseJVal (intChars i ++ rest) = some (.n i, rest)
      rw [hds, List.cons_append]
      simp only [parseJVal]
      rw [if_neg hdq, ← List.cons_append, ← hds, parseInt_roundtrip i rest hr]

/-- A printed object body is at least as long as its pair list. -/
theorem printPairs_length (o : List (String × JVal)) : o.length ≤ (printPairs o).length := by
  induction o with
  | nil => simp [printPairs]
  | cons p ps ih =>
      cases ps with
      | nil =>
          show 1 ≤ (printPair p).length
          unfold printPair
          simp
      | cons q qs =>
          show (p :: q :: qs).length ≤ (printPair p ++ ',' :: printPairs (q :: qs)).length
          unfold printPair
          simp only [List.length_append, List.length_cons] at ih ⊢
          omega

/-- A printed array body is at least as long as its object list. -/
theorem printObjs_length (objs : List (List (String × JVal))) :
    objs.length ≤ (printObjs objs).length := by
  induction objs with
  | nil => simp [printObjs]
  | cons o os ih =>
      cases os with
      | nil =>
          show 1 ≤ (printObj o).length
          unfold printObj
          simp
      | cons o2 os2 =>
          show (o :: o2 :: os2).length ≤ (printObj o ++ ',' :: printObjs (o2 :: os2)).length
          unfold printObj
          simp only [List.length_append, List.length_cons] at ih ⊢
          omega

/-- `parsePairsCore` inverts `printPairs` on clean non-empty objects with
sufficient fuel. -/
theorem parsePairsCore_roundtrip :
    ∀ (ps : List (String × JVal)) (fuel : Nat) (rest : List Char),
      ps ≠ [] → ps.length ≤ fuel → cleanObj ps →
      parsePairsCore fuel (printPairs ps ++ rbraceChar :: rest) = some (ps, rest) := by
  intro ps
  induction ps with
  | nil =>
      intro fuel rest hne _ _
      exact absurd rfl hne
  | cons p ps ih =>
      intro fuel rest hne hfuel hclean
      have hf1 : 1 ≤ fuel := by
        have hl := hfuel
        simp only [List.length_cons] at hl
        omega
      obtain ⟨f, rfl⟩ : ∃ f, fuel = f + 1 := ⟨fuel - 1, by omega⟩
      have hkey : ∀ c ∈ p.1.toList, c.toNat ≠ 34 := (hclean p (by simp)).1
      have hval : cleanVal p.2 := (hclean p (by simp)).2
      cases ps with
      | nil =>
          have e2 : parseJVal (printJVal p.2 ++ rbraceChar :: rest) =
              some (p.2, rbraceChar :: rest) :=
            parseJVal_roundtrip p.2 (rbraceChar :: rest) hval (by
              intro c hc
              rw [List.head?_cons, Option.some_inj] at hc
              subst hc
              decide)
          have e1 : parseJStr (quoteChar ::
                (p.1.toList ++ quoteChar :: (':' :: (printJVal p.2 ++ rbraceChar :: rest)))) =
              some (p.1, ':' :: (printJVal p.2 ++ rbraceChar :: rest)) :=
            parseJStr_roundtrip p.1 _ hkey
          have hin : printPairs [p] ++ rbraceChar :: rest =
              quoteChar ::
                (p.1.toList ++ quoteChar :: (':' :: (printJVal p.2 ++ rbraceChar :: rest))) := by
            show printPair p ++ rbraceChar :: rest = _
            unfold printPair
            simp [List.cons_append, List.append_assoc]
          rw [hin]
          simp only [parsePairsCore, e1, e2]
          simp [show ¬(rbraceChar = ',') from by decide]
      | cons q qs =>
          have e2 : parseJVal (printJVal p.2 ++
                ',' :: (printPairs (q :: qs) ++ rbraceChar :: rest)) =
              some (p.2, ',' :: (printPairs (q :: qs) ++ rbraceChar :: rest)) :=
            parseJVal_roundtrip p.2 _ hval (by
              intro c hc
              rw [List.head?_cons, Option.some_inj] at hc
              subst hc
              decide)
          have e1 : parseJStr (quoteChar ::
                (p.1.toList ++ quoteChar :: (':' :: (printJVal p.2 ++
                  ',' :: (printPairs (q :: qs) ++ rbraceChar :: rest))))) =
              some (p.1, ':' :: (printJVal p.2 ++
                ',' :: (printPairs (q :: qs) ++ rbraceChar :: rest))) :=
            parseJStr_roundtrip p.1 _ hkey
          have erec : parsePairsCore f (printPairs (q :: qs) ++ rbraceChar :: rest) =
              some (q :: qs, rest) := by
            refine ih f rest (by simp) ?_ (fun x hx => hclean x (by simp [hx]))
            simp only [List.length_cons] at hfuel ⊢
            omega
          have hin : printPairs (p :: q :: qs) ++ rbraceChar :: rest =
              quoteChar ::
                (p.1.toList ++ quoteChar :: (':' :: (printJVal p.2 ++
                  ',' :: (printPairs (q :: qs) ++ rbraceChar :: rest)))) := by
            show (printPair p ++ ',' :: printPairs (q :: qs)) ++ rbraceChar :: rest = _
            unfold printPair
            simp [List.cons_append, List.append_assoc]
          rw [hin]
          simp only [parsePairsCore, e1, e2]
          simp [show ¬(rbraceChar = ',') from by decide, erec]

/-- `parseObj` inverts `printObj` on clean objects. -/
theorem parseObj_roundtrip (o : List (String × JVal)) (rest : List Char)
    (hclean : cleanObj o) :
    parseObj (printObj o ++ rest) = some (o, rest) := by
  cases o with
  | nil =>
      show parseObj ((lbraceChar :: printPairs []) ++ [rbraceChar] ++ rest) = some ([], rest)
      simp [parseObj, printPairs, show (rbraceChar = rbraceChar) from rfl]
  | cons p ps =>
      obtain ⟨tl, htl⟩ : ∃ tl, printPairs (p :: ps) = quoteChar :: tl := by
        cases ps with
        | nil => exact ⟨_, rfl⟩
        | cons q qs => exact ⟨_, rfl⟩
      have hin : printObj (p :: ps) ++ rest =
          lbraceChar :: (printPairs (p :: ps) ++ rbraceChar :: rest) := by
        show (lbraceChar :: printPairs (p :: ps)) ++ [rbraceChar] ++ rest = _
        simp [List.cons_append, List.append_assoc]
      rw [hin, htl, List.cons_append]
      simp only [parseObj, if_true]
      rw [if_neg (show ¬(quoteChar = rbraceChar) from by decide)]
      rw [show quoteChar :: (tl ++ rbraceChar :: rest) =
        (quoteChar :: tl) ++ rbraceChar :: rest from rfl]
      rw [← htl]
      refine parsePairsCore_roundtrip (p :: ps) _ rest (by simp) ?_ hclean
      have h1 := printPairs_length (p :: ps)
      have hlen1 : (printPairs (p :: ps)).length = tl.length + 1 := by
        rw [htl]
        rfl
      simp only [List.length_cons, List.length_append] at h1 hlen1 ⊢
      omega

/-- `parseObjsCore` inverts `printObjs` on clean non-empty arrays with
sufficient fuel. -/
theorem parseObjsCore_roundtrip :
    ∀ (objs : List (List (String × JVal))) (fuel : Nat) (rest : List Char),
      objs ≠ [] → objs.length ≤ fuel → (∀ o ∈ objs, cleanObj o) →
      parseObjsCore fuel (printObjs objs ++ ']' :: rest) = some (objs, rest) := by
  intro objs
  induction objs with
  | nil =>
      intro fuel rest hne _ _
      exact absurd rfl hne
  | cons o os ih =>
      intro fuel rest hne hfuel hclean
      have hf1 : 1 ≤ fuel := by
        have hl := hfuel
        simp only [List.length_cons] at hl
        omega
      obtain ⟨f, rfl⟩ : ∃ f, fuel = f + 1 := ⟨fuel - 1, by omega⟩
      have ho : cleanObj o := hclean o (by simp)
      cases os with
      | nil =>
          have e1 : parseObj (printObj o ++ ']' :: rest) = some (o, ']' :: rest) :=
            parseObj_roundtrip o (']' :: rest) ho
          have hin : printObjs [o] ++ ']' :: rest = printObj o ++ ']' :: rest := rfl
          rw [hin]
          simp only [parseObjsCore, e1]
          simp [show ¬((']' : Char) = ',') from by decide]
      | cons o2 os2 =>
          have e1 : parseObj (printObj o ++
                ',' :: (printObjs (o2 :: os2) ++ ']' :: rest)) =
              some (o, ',' :: (printObjs (o2 :: os2) ++ ']' :: rest)) :=
            parseObj_roundtrip o _ ho
          have erec : parseObjsCore f (printObjs (o2 :: os2) ++ ']' :: rest) =
              some (o2 :: os2, rest) := by
            refine ih f rest (by simp) ?_ (fun x hx => hclean x (by simp [hx]))
            simp only [List.length_cons] at hfuel ⊢
            omega
          have hin : printObjs (o :: o2 :: os2) ++ ']' :: rest =
              printObj o ++ ',' :: (printObjs (o2 :: os2) ++ ']' :: rest) := by
            show (printObj o ++ ',' :: printObjs (o2 :: os2)) ++ ']' :: rest = _
            simp [List.append_assoc]
          rw [hin]
          simp only [parseObjsCore, e1]
          simp [erec]

/-- `parseBatch` inverts `printBatch` on clean arrays of objects. -/
theorem parseBatch_roundtrip (objs : List (List (String × JVal))) (rest : List Char)
    (hclean : ∀ o ∈ objs, cleanObj o) :
    parseBatch (printBatch objs ++ rest) = some (objs, rest) := by
  cases objs with
  | nil =>
      show parseBatch (('[' :: printObjs []) ++ [']'] ++ rest) = some ([], rest)
      simp [parseBatch, printObjs]
  | cons o os =>
      obtain ⟨tl, htl⟩ : ∃ tl, printObjs (o :: os) = lbraceChar :: tl := by
        cases os with
        | nil => exact ⟨_, rfl⟩
        | cons o2 os2 => exact ⟨_, rfl⟩
      have hin : printBatch (o :: os) ++ rest =
          '[' :: (printObjs (o :: os) ++ ']' :: rest) := by
        show ('[' :: printObjs (o :: os)) ++ [']'] ++ rest = _
        simp [List.cons_append, List.append_assoc]
      rw [hin, htl, List.cons_append]
      simp only [parseBatch, if_true]
      rw [if_neg (show ¬(lbraceChar = ']') from by decide)]
      rw [show lbraceChar :: (tl ++ ']' :: rest) =
        (lbraceChar :: tl) ++ ']' :: rest from rfl]
      rw [← htl]
      refine parseObjsCore_roundtrip (o :: os) _ rest (by simp) ?_ hclean
      have h1 := printObjs_length (o :: os)
      have hlen1 : (printObjs (o :: os)).length = tl.length + 1 := by
        rw [htl]
        rfl
      simp only [List.length_cons, List.length_append] at h1 hlen1 ⊢
      omega

/-- The JSON object of a valid record has quote-free keys and values. -/
theorem recordToJson_clean (r : DisasterData) (hr : validRecord r) :
    cleanObj (recordToJson r) := by
  obtain ⟨hdev, hlv, hst, _⟩ := hr
  intro p hp
  simp only [recordToJson, List.mem_cons, List.not_mem_nil, or_false] at hp
  rcases hp with rfl | rfl | rfl | rfl | rfl | rfl | rfl
  · exact ⟨(by decide : ∀ c ∈ "_id".toList, c.toNat ≠ 34),
      fun c hc => (padHex_safe 24 r._id c hc).2⟩
  · exact ⟨(by decide : ∀ c ∈ "deviceId".toList, c.toNat ≠ 34),
      fun c hc => (hdev c hc).2.2.1⟩
  · exact ⟨(by decide : ∀ c ∈ "latitude".toList, c.toNat ≠ 34), trivial⟩
  · exact ⟨(by decide : ∀ c ∈ "longitude".toList, c.toNat ≠ 34), trivial⟩
  · exact ⟨(by decide : ∀ c ∈ "batteryLevel".toList, c.toNat ≠ 34),
      fun c hc => (hlv c hc).2.2.1⟩
  · exact ⟨(by decide : ∀ c ∈ "batteryState".toList, c.toNat ≠ 34),
      fun c hc => (hst c hc).2.2.1⟩
  · exact ⟨(by decide : ∀ c ∈ "timestamp".toList, c.toNat ≠ 34),
      fun c hc => (isoOf_safe r.timestamp c hc).2⟩

/-- A printed string value is ASCII when its content is. -/
theorem printJVal_s_ascii (str : String) (h : ∀ c ∈ str.toList, c.toNat < 127) :
    ∀ c ∈ printJVal (.s str), c.toNat < 256 := by
  show ∀ c ∈ (quoteChar :: str.toList) ++ [quoteChar], c.toNat < 256
  apply forall_mem_append_intro
  · exact forall_mem_cons_intro (by decide) (fun c hc => by
      have := h c hc
      omega)
  · decide

/-- A printed numeric value is ASCII. -/
theorem printJVal_n_ascii (i : Int) : ∀ c ∈ printJVal (.n i), c.toNat < 256 := by
  intro c hc
  have := (intChars_safe i c hc).1
  omega

/-- The printed pairs of an object with ASCII keys and values are ASCII. -/
theorem printPairs_ascii (o : List (String × JVal))
    (h : ∀ p ∈ o, (∀ c ∈ p.1.toList, c.toNat < 256) ∧
      ∀ c ∈ printJVal p.2, c.toNat < 256) :
    ∀ c ∈ printPairs o, c.toNat < 256 := by
  induction o with
  | nil => simp [printPairs]
  | cons p ps ih =>
      obtain ⟨hk, hv'⟩ := h p (by simp)
      cases ps with
      | nil =>
          show ∀ c ∈ ((quoteChar :: p.1.toList) ++ [quoteChar, ':']) ++ printJVal p.2,
            c.toNat < 256
          apply forall_mem_append_intro
          · apply forall_mem_append_intro
            · exact forall_mem_cons_intro (by decide) hk
            · decide
          · exact hv'
      | cons q qs =>
          show ∀ c ∈ (((quoteChar :: p.1.toList) ++ [quoteChar, ':']) ++ printJVal p.2) ++
            ',' :: printPairs (q :: qs), c.toNat < 256
          apply forall_mem_append_intro
          · apply forall_mem_append_intro
            · apply forall_mem_append_intro
              · exact forall_mem_cons_intro (by decide) hk
              · decide
            · exact hv'
          · exact forall_mem_cons_intro (by decide)
              (ih (fun x hx => h x (by simp [hx])))

/-- A printed object with ASCII pairs is ASCII. -/
theorem printObj_ascii (o : List (String × JVal))
    (h : ∀ c ∈ printPairs o, c.toNat < 256) :
    ∀ c ∈ printObj o, c.toNat < 256 := by
  show ∀ c ∈ (lbraceChar :: printPairs o) ++ [rbraceChar], c.toNat < 256
  apply forall_mem_append_intro
  · exact forall_mem_cons_intro (by decide) h
  · decide

/-- A printed array of ASCII objects is ASCII. -/
theorem printObjs_ascii (objs : List (List (String × JVal)))
    (h : ∀ o ∈ objs, ∀ c ∈ printObj o, c.toNat < 256) :
    ∀ c ∈ printObjs objs, c.toNat < 256 := by
  induction objs with
  | nil => simp [printObjs]
  | cons o os ih =>
      cases os with
      | nil =>
          show ∀ c ∈ printObj o, c.toNat < 256
          exact h o (by simp)
      | cons o2 os2 =>
          show ∀ c ∈ printObj o ++ ',' :: printObjs (o2 :: os2), c.toNat < 256
          apply forall_mem_append_intro
          · exact h o (by simp)
          · exact forall_mem_cons_intro (by decide)
              (ih (fun x hx => h x (by simp [hx])))

/-- One valid record's JSON object has ASCII keys and printed values. -/
theorem recordToJson_ascii (r : DisasterData) (hr : validRecord r) :
    ∀ p ∈ recordToJson r, (∀ c ∈ p.1.toList, c.toNat < 256) ∧
      ∀ c ∈ printJVal p.2, c.toNat < 256 := by
  obtain ⟨hdev, hlv, hst, _⟩ := hr
  intro p hp
  simp only [recordToJson, List.mem_cons, List.not_mem_nil, or_false] at hp
  rcases hp with rfl | rfl | rfl | rfl | rfl | rfl | rfl
  · exact ⟨(by decide : ∀ c ∈ "_id".toList, c.toNat < 256),
      printJVal_s_ascii _ (fun c hc => (padHex_safe 24 r._id c hc).1)⟩
  · exact ⟨(by decide : ∀ c ∈ "deviceId".toList, c.toNat < 256),
      printJVal_s_ascii _ (fun c hc => (hdev c hc).2.1)⟩
  · exact ⟨(by decide : ∀ c ∈ "latitude".toList, c.toNat < 256), printJVal_n_ascii _⟩
  · exact ⟨(by decide : ∀ c ∈ "longitude".toList, c.toNat < 256), printJVal_n_ascii _⟩
  · exact ⟨(by decide : ∀ c ∈ "batteryLevel".toList, c.toNat < 256),
      printJVal_s_ascii _ (fun c hc => (hlv c hc).2.1)⟩
  · exact ⟨(by decide : ∀ c ∈ "batteryState".toList, c.toNat < 256),
      printJVal_s_ascii _ (fun c hc => (hst c hc).2.1)⟩
  · exact ⟨(by decide : ∀ c ∈ "timestamp".toList, c.toNat < 256),
      printJVal_s_ascii _ (fun c hc => (isoOf_safe r.timestamp c hc).1)⟩

/-- The JSON text of a valid batch is ASCII. -/
theorem stringifyBatch_ascii (b : List DisasterData) (hv : validBatch b) :
    ∀ c ∈ stringifyBatch b, c.toNat < 256 := by
  show ∀ c ∈ ('[' :: printObjs (b.map recordToJson)) ++ [']'], c.toNat < 256
  apply forall_mem_append_intro
  · apply forall_mem_cons_intro
    · decide
    · apply printObjs_ascii
      intro o ho
      obtain ⟨r, hr, rfl⟩ := List.mem_map.mp ho
      exact printObj_ascii _ (printPairs_ascii _ (recordToJson_ascii r (hv r hr)))
  · decide

/-- C4 (amended). The codec round-trips up to the JSON projection of the
records: for every valid batch, `decodeBatch (encodeBatch b)` succeeds and
returns one JSON object per record with the string and coordinate fields
field-for-field equal, while `_id` and `timestamp` come back as their hex and
ISO-8601 string renderings (not as ObjectId/Date values); malformed wire
input yields a decode error, not an unrecoverable fault. -/
theorem decodeBatch_encodeBatch (b : List DisasterData) (hv : validBatch b) :
    decodeBatch (encodeBatch b) = Except.ok (b.map recordToJson) ∧
    (∀ r ∈ b, lookupField (recordToJson r) "timestamp" =
        some (JVal.s (String.mk (isoOf r.timestamp))) ∧
      lookupField (recordToJson r) "_id" = some (JVal.s (String.mk (hexId r._id))) ∧
      lookupField (recordToJson r) "deviceId" = some (JVal.s r.deviceId) ∧
      lookupField (recordToJson r) "latitude" = some (JVal.n r.latitude) ∧
      lookupField (recordToJson r) "batteryLevel" = some (JVal.s r.batteryLevel)) ∧
    decodeBatch "%%" = Except.error "Unexpected token in JSON" := by
  refine ⟨?_, fun r _ => ⟨rfl, rfl, rfl, rfl, rfl⟩, by rfl⟩
  have hascii : ∀ x ∈ (stringifyBatch b).map Char.toNat, x < 256 := by
    intro x hx
    obtain ⟨c, hc, rfl⟩ := List.mem_map.mp hx
    exact stringifyBatch_ascii b hv c hc
  have hb64 := b64_roundtrip _ hascii
  have hclean : ∀ o ∈ b.map recordToJson, cleanObj o := by
    intro o ho
    obtain ⟨r, hr, rfl⟩ := List.mem_map.mp ho
    exact recordToJson_clean r (hv r hr)
  have hparse : parseBatch (stringifyBatch b) = some (b.map recordToJson, []) := by
    have h := parseBatch_roundtrip (b.map recordToJson) [] hclean
    rw [List.append_nil] at h
    exact h
  have hwire : (b64DecodeChars (encodeBatch b).toList).map Char.ofNat = stringifyBatch b := by
    rw [show (encodeBatch b).toList =
      b64EncodeBytes ((stringifyBatch b).map Char.toNat) from rfl]
    rw [hb64, List.map_map]
    have hcomp : (Char.ofNat ∘ Char.toNat) = id := by
      funext c
      exact Char.ofNat_toNat c
    rw [hcomp, List.map_id]
  show (match parseBatch ((b64DecodeChars (encodeBatch b).toList).map Char.ofNat) with
      | some (objs, []) => Except.ok objs
      | some (_, _ :: _) => Except.error "Unexpected non-whitespace character after JSON"
      | none => Except.error "Unexpected token in JSON") = Except.ok (b.map recordToJson)
  rw [hwire, hparse]

set_option maxRecDepth 20000 in
/-- Witness for C4 (amended): a concrete one-record batch round-trips to its
JSON projection. -/
theorem decodeBatch_encodeBatch_witness :
    validBatch [recB2] ∧
    decodeBatch (encodeBatch [recB2]) = Except.ok [recordToJson recB2] :=
  ⟨by decide, (decodeBatch_encodeBatch [recB2] (by decide)).1⟩

set_option maxRecDepth 20000 in
/-- Counterexample for C4 as stated: decoding the encoding of a concrete
batch yields a record object whose `timestamp` field is the ISO-8601 string
rendering, a JSON string — not the record's timestamp value (the instant 1),
so the decoded batch is not field-for-field equal to the original batch. -/
theorem decodeBatch_encodeBatch_counterexample :
    decodeBatch (encodeBatch [recA1]) = Except.ok [recordToJson recA1] ∧
    lookupField (recordToJson recA1) "timestamp" =
      some (JVal.s "1970-01-01T00:00:00.001Z") ∧
    JVal.s "1970-01-01T00:00:00.001Z" ≠ JVal.n ((1 : Int)) ∧
    recA1.timestamp = 1 := by
  refine ⟨by rfl, by rfl, by simp, by rfl⟩

end Bluee
